import Mathlib

/- Verification of the forensic-adb ADB host-protocol client (src/lib.rs).

   Modelling conventions:
   - machine integers are Nat with explicit truncation (`% 256`, `% 2^32`)
     where the source relies on fixed-width behaviour;
   - byte streams are `List Nat` of byte values; reading from a stream
     returns the value together with the unread remainder, and `none` (or an
     `ioErr`) models the I/O error of a failed `read_exact`;
   - fallible operations return `Except`/`Option`;
   - strings handled as text by the source are `String`/`List Char`. -/

namespace ForensicAdb

/-- Byte values of an ASCII string literal, used for protocol constants and
for the error messages the source builds with format strings. -/
def strBytes (s : String) : List Nat := s.data.map Char.toNat

/-- String-level errors of `DeviceError` (src/lib.rs 91-117) used by the
string-processing operations modelled below.  Payload-free constructors stand
for the variants whose payload the claims never inspect. -/
inductive DeviceErrorS where
  | Adb (msg : String)
  | FromInt
  | InvalidStorage
  | MissingPackage
  | MultipleDevices
  | ParseIntErr
  | UnknownDevice (serial : List Char)
deriving DecidableEq, Repr

instance {ε α : Type} [DecidableEq ε] [DecidableEq α] : DecidableEq (Except ε α) := fun x y =>
  match x, y with
  | .ok a, .ok b => if h : a = b then isTrue (by rw [h]) else isFalse (by simp [h])
  | .error a, .error b => if h : a = b then isTrue (by rw [h]) else isFalse (by simp [h])
  | .ok _, .error _ => isFalse (by simp)
  | .error _, .ok _ => isFalse (by simp)

/-- Uppercase hexadecimal digit character for a value below 16, as produced
by the source's uppercase-hex formatting. -/
def hexDigitChar (d : Nat) : Char :=
  if d < 10 then Char.ofNat (48 + d) else Char.ofNat (55 + d)

/-- Structural worker for `toHexUpper`; the fuel bounds the number of digits
and is always sufficient at the call site. -/
def toHexUpperAux : Nat → Nat → List Char
  | 0, n => [hexDigitChar (n % 16)]
  | fuel + 1, n =>
      if n < 16 then [hexDigitChar n]
      else toHexUpperAux fuel (n / 16) ++ [hexDigitChar (n % 16)]

/-- Uppercase hexadecimal digits of `n`, most significant first, no leading
zeros (the digits a Rust uppercase-hex format emits before padding). -/
def toHexUpper (n : Nat) : List Char := toHexUpperAux n n

/-- Uppercase hexadecimal of `n` zero-padded on the left to width 4: the
formatting `encode_message` (src/lib.rs 120) applies to the payload length. -/
def formatHex4 (n : Nat) : String :=
  String.mk (List.replicate (4 - (toHexUpper n).length) '0' ++ toHexUpper n)

/-- encode_message (src/lib.rs 119-123).  The length is the payload's UTF-8
byte count; `u16::try_from` fails above 65535 (surfaced as the `FromInt`
variant by the `?` operator); otherwise the 4-digit zero-padded uppercase hex
of the length is prepended to the payload. -/
def encode_message (payload : String) : Except DeviceErrorS String :=
  if payload.utf8ByteSize ≤ 65535 then
    .ok (formatHex4 payload.utf8ByteSize ++ payload)
  else
    .error .FromInt

/-- Recognises the ASCII characters of an uppercase hexadecimal digit. -/
def isUpperHexDigit (c : Char) : Bool :=
  (48 ≤ c.toNat && c.toNat ≤ 57) || (65 ≤ c.toNat && c.toNat ≤ 70)

/-- Value of an uppercase hexadecimal digit character. -/
def hexCharVal (c : Char) : Nat :=
  if c.toNat ≤ 57 then c.toNat - 48 else c.toNat - 55

/-- Value of a big-endian string of hexadecimal digit characters. -/
def hexListVal (l : List Char) : Nat :=
  l.foldl (fun a c => 16 * a + hexCharVal c) 0

lemma hexListVal_foldl (l : List Char) (a : Nat) :
    l.foldl (fun a c => 16 * a + hexCharVal c) a = a * 16 ^ l.length + hexListVal l := by
  induction l generalizing a with
  | nil => simp [hexListVal]
  | cons c t ih =>
    simp only [List.foldl_cons, List.length_cons, hexListVal]
    rw [ih (16 * a + hexCharVal c), ih (16 * 0 + hexCharVal c)]
    ring

lemma hexListVal_append (l₁ l₂ : List Char) :
    hexListVal (l₁ ++ l₂) = hexListVal l₁ * 16 ^ l₂.length + hexListVal l₂ := by
  unfold hexListVal
  rw [List.foldl_append, hexListVal_foldl]
  rfl

lemma hexCharVal_hexDigitChar (d : Nat) (h : d < 16) :
    hexCharVal (hexDigitChar d) = d := by
  interval_cases d <;> decide

lemma isUpperHexDigit_hexDigitChar (d : Nat) (h : d < 16) :
    isUpperHexDigit (hexDigitChar d) = true := by
  interval_cases d <;> decide

lemma hexListVal_singleton (c : Char) : hexListVal [c] = hexCharVal c := by
  simp [hexListVal]

lemma hexListVal_toHexUpperAux (fuel : Nat) :
    ∀ n, n < 16 ^ (fuel + 1) → hexListVal (toHexUpperAux fuel n) = n := by
  induction fuel with
  | zero =>
    intro n hn
    norm_num at hn
    show hexListVal [hexDigitChar (n % 16)] = n
    rw [hexListVal_singleton, hexCharVal_hexDigitChar _ (Nat.mod_lt _ (by omega))]
    omega
  | succ fuel ih =>
    intro n hn
    simp only [toHexUpperAux]
    split
    · rw [hexListVal_singleton, hexCharVal_hexDigitChar _ (by omega)]
    · have hdiv : n / 16 < 16 ^ (fuel + 1) :=
        Nat.div_lt_of_lt_mul (by rw [pow_succ] at hn; omega)
      rw [hexListVal_append, hexListVal_singleton,
        hexCharVal_hexDigitChar _ (Nat.mod_lt _ (by omega)), ih (n / 16) hdiv]
      simp only [List.length_singleton, pow_one]
      omega

lemma hexListVal_toHexUpper (n : Nat) : hexListVal (toHexUpper n) = n := by
  have hn : n < 16 ^ (n + 1) :=
    lt_of_lt_of_le (Nat.lt_pow_self (by norm_num) n)
      (Nat.pow_le_pow_right (by norm_num) (by omega))
  exact hexListVal_toHexUpperAux n n hn

lemma toHexUpper_ne_nil (n : Nat) : toHexUpper n ≠ [] := by
  show toHexUpperAux n n ≠ []
  cases n with
  | zero => simp [toHexUpperAux]
  | succ k =>
    simp only [toHexUpperAux]
    split <;> simp

lemma length_toHexUpperAux_le (fuel : Nat) :
    ∀ k n, n < 16 ^ (k + 1) → (toHexUpperAux fuel n).length ≤ k + 1 := by
  induction fuel with
  | zero =>
    intro k n _
    show [hexDigitChar (n % 16)].length ≤ k + 1
    simp
  | succ fuel ih =>
    intro k n hn
    simp only [toHexUpperAux]
    split
    · simp
    · cases k with
      | zero =>
        norm_num at hn
        omega
      | succ k =>
        have hdiv : n / 16 < 16 ^ (k + 1) :=
          Nat.div_lt_of_lt_mul (by rw [pow_succ] at hn; omega)
        have := ih k (n / 16) hdiv
        simp only [List.length_append, List.length_singleton]
        omega

lemma hexListVal_replicate_zero_append (k : Nat) (l : List Char) :
    hexListVal (List.replicate k '0' ++ l) = hexListVal l := by
  rw [hexListVal_append]
  have hz : ∀ m, hexListVal (List.replicate m '0') = 0 := by
    intro m
    induction m with
    | zero => rfl
    | succ j ihj =>
      rw [List.replicate_succ]
      show List.foldl _ 0 ('0' :: List.replicate j '0') = 0
      simp only [List.foldl_cons]
      have : (16 * 0 + hexCharVal '0') = 0 := by decide
      rw [this]
      exact ihj
  rw [hz k]
  simp

lemma mem_toHexUpperAux_isUpperHexDigit (fuel : Nat) :
    ∀ n, ∀ c ∈ toHexUpperAux fuel n, isUpperHexDigit c = true := by
  induction fuel with
  | zero =>
    intro n c hc
    simp only [toHexUpperAux, List.mem_singleton] at hc
    subst hc
    exact isUpperHexDigit_hexDigitChar _ (Nat.mod_lt _ (by omega))
  | succ fuel ih =>
    intro n c hc
    simp only [toHexUpperAux] at hc
    split at hc
    · simp only [List.mem_singleton] at hc
      subst hc
      exact isUpperHexDigit_hexDigitChar _ (by omega)
    · simp only [List.mem_append, List.mem_singleton] at hc
      rcases hc with hc | hc
      · exact ih (n / 16) c hc
      · subst hc
        exact isUpperHexDigit_hexDigitChar _ (Nat.mod_lt _ (by omega))

lemma mem_formatHex4_isUpperHexDigit (n : Nat) :
    ∀ c ∈ (formatHex4 n).data, isUpperHexDigit c = true := by
  intro c hc
  change c ∈ List.replicate _ '0' ++ toHexUpper n at hc
  simp only [List.mem_append, List.mem_replicate] at hc
  rcases hc with ⟨_, rfl⟩ | hc
  · decide
  · exact mem_toHexUpperAux_isUpperHexDigit n n c hc

lemma formatHex4_length (n : Nat) (h : n ≤ 65535) : (formatHex4 n).length = 4 := by
  have hlen : (toHexUpper n).length ≤ 4 := length_toHexUpperAux_le n 3 n (by omega)
  show (List.replicate (4 - (toHexUpper n).length) '0' ++ toHexUpper n).length = 4
  have hne := toHexUpper_ne_nil n
  have hpos : 0 < (toHexUpper n).length := List.length_pos.mpr hne
  simp only [List.length_append, List.length_replicate]
  omega

lemma hexListVal_formatHex4 (n : Nat) : hexListVal (formatHex4 n).data = n := by
  show hexListVal (List.replicate _ '0' ++ toHexUpper n) = n
  rw [hexListVal_replicate_zero_append, hexListVal_toHexUpper]

/-- C1: `encode_message` prefixes every payload whose UTF-8 byte length is at
most 65535 with the 4-digit uppercase zero-padded hexadecimal of that length
(in particular it maps "" to "0000" and "a" to "0001a"), and fails with the
integer-conversion error for every longer payload. -/
theorem encode_message_spec (s : String) :
    (s.utf8ByteSize ≤ 65535 →
      ∃ h : String, encode_message s = .ok (h ++ s) ∧ h.length = 4 ∧
        (∀ c ∈ h.data, isUpperHexDigit c = true) ∧ hexListVal h.data = s.utf8ByteSize) ∧
    (65535 < s.utf8ByteSize → encode_message s = .error .FromInt) ∧
    encode_message "" = .ok "0000" ∧ encode_message "a" = .ok "0001a" := by
  refine ⟨fun hle => ?_, fun hgt => ?_, by decide, by decide⟩
  · refine ⟨formatHex4 s.utf8ByteSize, ?_, formatHex4_length _ hle,
      mem_formatHex4_isUpperHexDigit _, hexListVal_formatHex4 _⟩
    unfold encode_message
    rw [if_pos hle]
  · unfold encode_message
    rw [if_neg (by omega)]

lemma utf8ByteSize_mk_replicate (n : Nat) :
    (String.mk (List.replicate n 'a')).utf8ByteSize = n := by
  induction n with
  | zero => rfl
  | succ k ih =>
    rw [List.replicate_succ]
    show String.utf8ByteSize.go ('a' :: List.replicate k 'a') = k + 1
    show String.utf8ByteSize.go (List.replicate k 'a') + Char.utf8Size 'a' = k + 1
    have hgo : String.utf8ByteSize.go (List.replicate k 'a') = k := ih
    rw [hgo, show ('a' : Char).utf8Size = 1 from by decide]

theorem encode_message_spec_witness :
    (∃ h : String, encode_message "a" = .ok (h ++ "a") ∧ h.length = 4 ∧
      (∀ c ∈ h.data, isUpperHexDigit c = true) ∧ hexListVal h.data = ("a" : String).utf8ByteSize) ∧
    encode_message (String.mk (List.replicate 65536 'a')) = .error .FromInt :=
  ⟨(encode_message_spec "a").1 (by decide),
   (encode_message_spec (String.mk (List.replicate 65536 'a'))).2.1
     (by rw [utf8ByteSize_mk_replicate]; omega)⟩

/-- read_length_little_endian (src/lib.rs 178-188): read four bytes and
combine them little-endian (the source's `<<` shifts written as `<<<`).
Returns the value and the unread remainder of the stream; `none` models the
I/O error when fewer than four bytes are available. -/
def read_length_little_endian : List Nat → Option (Nat × List Nat)
  | b0 :: b1 :: b2 :: b3 :: t =>
      some (b0 + (b1 <<< 8) + (b2 <<< 16) + (b3 <<< 24), t)
  | _ => none

/-- write_length_little_endian (src/lib.rs 191-202): the four bytes of `n` in
little-endian order; the source's shift-and-mask `(n >> k) & 0xFF` is written
`(n >>> k) % 256`. -/
def write_length_little_endian (n : Nat) : List Nat :=
  [n % 256, (n >>> 8) % 256, (n >>> 16) % 256, (n >>> 24) % 256]

lemma read_write_le_roundtrip (n : Nat) (t : List Nat) (h : n < 2 ^ 32) :
    read_length_little_endian (write_length_little_endian n ++ t) = some (n, t) := by
  simp only [write_length_little_endian, List.cons_append, List.nil_append,
    read_length_little_endian, Nat.shiftLeft_eq, Nat.shiftRight_eq_div_pow,
    Option.some.injEq, Prod.mk.injEq, and_true]
  have h8 : (2 : Nat) ^ 8 = 256 := by norm_num
  have h16 : (2 : Nat) ^ 16 = 65536 := by norm_num
  have h24 : (2 : Nat) ^ 24 = 16777216 := by norm_num
  have h32 : (2 : Nat) ^ 32 = 4294967296 := by norm_num
  rw [h8, h16, h24] at *
  omega

/-- C8: for every n in [0, 2^32), reading a little-endian 4-byte length from
the bytes produced by writing n as a little-endian 4-byte length returns n
(consuming exactly those four bytes). -/
theorem read_length_le_of_write_length_le (n : Nat) (h : n < 2 ^ 32) :
    read_length_little_endian (write_length_little_endian n) = some (n, []) := by
  have := read_write_le_roundtrip n [] h
  simpa using this

theorem read_length_le_of_write_length_le_witness :
    read_length_little_endian (write_length_little_endian 3735928559) =
      some (3735928559, []) :=
  read_length_le_of_write_length_le 3735928559 (by norm_num)

/-- Characters of an ASCII string literal. -/
def strChars (s : String) : List Char := s.data

/-- Safe shell characters: the complement of the class matched by
`SYNC_REGEX` (src/lib.rs 59), whose pattern matches any character outside
the letters, digits and the punctuation below. -/
def safeChar (c : Char) : Bool :=
  (decide (65 ≤ c.toNat) && decide (c.toNat ≤ 90)) ||
  (decide (97 ≤ c.toNat) && decide (c.toNat ≤ 122)) ||
  (decide (48 ≤ c.toNat) && decide (c.toNat ≤ 57)) ||
  c == '_' || c == '@' || c == '%' || c == '+' || c == '=' || c == ':' ||
  c == ',' || c == '.' || c == '/' || c == '-'

/-- `SYNC_REGEX.is_match`: the command contains at least one character
outside the safe class. -/
def sync_regex_matches (cmd : List Char) : Bool :=
  cmd.any (fun c => ! safeChar c)

/-- Models the single-quote escaping `shell_command.replace` performs in
src/lib.rs 717: every embedded single quote becomes quote, double quote,
quote, double quote, quote. -/
def escapeSingleQuotes (cmd : List Char) : List Char :=
  (cmd.map (fun c => if c = '\'' then ['\'', '"', '\'', '"', '\''] else [c])).flatten

/-- Outer-quote test of src/lib.rs 696-697: the command both starts and ends
with a double quote, or both starts and ends with a single quote. -/
def hasOuterQuotes (cmd : List Char) : Bool :=
  (['"'].isPrefixOf cmd && ['"'].isSuffixOf cmd) ||
  (['\''].isPrefixOf cmd && ['\''].isSuffixOf cmd)

/-- execute_host_shell_command_as (src/lib.rs 684-738), reduced to the
command string it hands to `execute_host_command_to_string` (or the error it
returns before issuing any command).  `enable_run_as` and the configured
`run_as_package` are the remaining inputs of the routing decision. -/
def execute_host_shell_command_as (shell_command : List Char) (enable_run_as : Bool)
    (run_as_package : Option (List Char)) : Except DeviceErrorS (List Char) :=
  if ['s', 'u'].isPrefixOf shell_command then
    .ok (strChars "shell:" ++ shell_command)
  else if enable_run_as then
    match run_as_package with
    | none => .error .MissingPackage
    | some pkg =>
      if hasOuterQuotes shell_command then
        .ok (strChars "shell:run-as " ++ pkg ++ [' '] ++ shell_command)
      else if sync_regex_matches shell_command then
        .ok (strChars "shell:run-as " ++ pkg ++ [' '] ++ escapeSingleQuotes shell_command)
      else
        .ok (strChars "shell:run-as " ++ pkg ++ [' ', '"'] ++ shell_command ++ ['"'])
  else
    .ok (strChars "shell:" ++ shell_command)

/-- C4: routing of `shell_exec_as`.  Commands starting with "su" bypass
run-as wrapping regardless of the flag; with run-as enabled, a missing
package is a MissingPackage error; an outer-quoted command is wrapped
verbatim; a command with unsafe characters has embedded single quotes
escaped; a safe command is wrapped in double quotes. -/
theorem execute_host_shell_command_as_spec (cmd : List Char) (run_as : Bool)
    (pkg? : Option (List Char)) :
    (['s', 'u'].isPrefixOf cmd = true →
      execute_host_shell_command_as cmd run_as pkg? = .ok (strChars "shell:" ++ cmd)) ∧
    (['s', 'u'].isPrefixOf cmd = false → run_as = true → pkg? = none →
      execute_host_shell_command_as cmd run_as pkg? = .error .MissingPackage) ∧
    (∀ pkg, ['s', 'u'].isPrefixOf cmd = false → run_as = true → pkg? = some pkg →
      hasOuterQuotes cmd = true →
      execute_host_shell_command_as cmd run_as pkg? =
        .ok (strChars "shell:run-as " ++ pkg ++ [' '] ++ cmd)) ∧
    (∀ pkg, ['s', 'u'].isPrefixOf cmd = false → run_as = true → pkg? = some pkg →
      hasOuterQuotes cmd = false → sync_regex_matches cmd = true →
      execute_host_shell_command_as cmd run_as pkg? =
        .ok (strChars "shell:run-as " ++ pkg ++ [' '] ++ escapeSingleQuotes cmd)) ∧
    (∀ pkg, ['s', 'u'].isPrefixOf cmd = false → run_as = true → pkg? = some pkg →
      hasOuterQuotes cmd = false → sync_regex_matches cmd = false →
      execute_host_shell_command_as cmd run_as pkg? =
        .ok (strChars "shell:run-as " ++ pkg ++ [' ', '"'] ++ cmd ++ ['"'])) := by
  refine ⟨fun hsu => ?_, fun hsu hr hp => ?_, fun pkg hsu hr hp hq => ?_,
    fun pkg hsu hr hp hq hm => ?_, fun pkg hsu hr hp hq hm => ?_⟩ <;>
    simp [execute_host_shell_command_as, hsu, *]

theorem execute_host_shell_command_as_spec_witness :
    execute_host_shell_command_as (strChars "echo 'x y'") true (some (strChars "org.app")) =
      .ok (strChars "shell:run-as " ++ strChars "org.app" ++ [' '] ++
        escapeSingleQuotes (strChars "echo 'x y'")) :=
  (execute_host_shell_command_as_spec (strChars "echo 'x y'") true
    (some (strChars "org.app"))).2.2.2.1 (strChars "org.app")
    (by decide) rfl rfl (by decide) (by decide)

/-- DeviceState (src/lib.rs 278-308). -/
inductive DeviceState where
  | Offline
  | Bootloader
  | Device
  | Host
  | Recovery
  | NoPermissions
  | Sideload
  | Unauthorized
  | Authorizing
  | Unknown
deriving DecidableEq, Repr

/-- `From` conversion of a state string (src/lib.rs 292-308); unknown
strings map to `Unknown`. -/
def deviceStateOf (s : List Char) : DeviceState :=
  if s = strChars "offline" then .Offline
  else if s = strChars "bootloader" then .Bootloader
  else if s = strChars "device" then .Device
  else if s = strChars "host" then .Host
  else if s = strChars "recovery" then .Recovery
  else if s = strChars "no permissions" then .NoPermissions
  else if s = strChars "sideload" then .Sideload
  else if s = strChars "unauthorized" then .Unauthorized
  else if s = strChars "authorizing" then .Authorizing
  else .Unknown

/-- DeviceInfo (src/lib.rs 311-316); the `BTreeMap` of attributes is
modelled as the association list produced by the parsing `filter_map`. -/
structure DeviceInfo where
  serial : List Char
  state : DeviceState
  info : List (List Char × List Char)
deriving DecidableEq, Repr

/-- device_or_default (src/lib.rs 351-396), reduced to the selection of the
device the session is constructed on.  `device_serial` is the explicit
argument, `android_serial_env` the value of the ANDROID_SERIAL environment
variable consulted when no argument is given; session construction itself
(`Device::new`, src/lib.rs 559-585) always succeeds and is represented by
the chosen `DeviceInfo`. -/
def device_or_default (all : List DeviceInfo) (device_serial : Option (List Char))
    (android_serial_env : Option (List Char)) : Except DeviceErrorS DeviceInfo :=
  let devices := all.filter (fun d => d.state == DeviceState.Device)
  match device_serial.or android_serial_env with
  | some serial =>
    match devices.find? (fun d => d.serial == serial) with
    | some d => .ok d
    | none => .error (.UnknownDevice serial)
  | none =>
    if 1 < devices.length then .error .MultipleDevices
    else
      match devices.head? with
      | some d => .ok d
      | none => .error (.Adb "No Android devices are online")

/-- C5: device selection considers only devices in state `Device`; a given
serial (argument, or environment when no argument) that matches no such
device fails with UnknownDevice; with no serial, more than one candidate is
MultipleDevices, exactly one is selected, and none is the "no devices
are online" protocol error. -/
theorem device_or_default_spec (all : List DeviceInfo)
    (arg env : Option (List Char)) :
    (∀ d, device_or_default all arg env = .ok d → d ∈ all ∧ d.state = .Device) ∧
    (∀ serial, arg.or env = some serial →
      (∀ d ∈ all, d.state = .Device → d.serial ≠ serial) →
      device_or_default all arg env = .error (.UnknownDevice serial)) ∧
    (arg = none → env = none →
      1 < (all.filter (fun d => d.state == DeviceState.Device)).length →
      device_or_default all arg env = .error .MultipleDevices) ∧
    (∀ d, arg = none → env = none →
      all.filter (fun d => d.state == DeviceState.Device) = [d] →
      device_or_default all arg env = .ok d) ∧
    (arg = none → env = none →
      all.filter (fun d => d.state == DeviceState.Device) = [] →
      device_or_default all arg env = .error (.Adb "No Android devices are online")) := by
  refine ⟨?_, ?_, ?_, ?_, ?_⟩
  · intro d hd
    cases hor : arg.or env with
    | some serial =>
      simp only [device_or_default, hor] at hd
      cases hf : (all.filter (fun d => d.state == DeviceState.Device)).find?
          (fun d => d.serial == serial) with
      | none => rw [hf] at hd; exact Except.noConfusion hd
      | some d' =>
        rw [hf] at hd
        have hd' : d' = d := by injection hd
        subst hd'
        have hmem := List.mem_of_find?_eq_some hf
        rw [List.mem_filter] at hmem
        exact ⟨hmem.1, by simpa using hmem.2⟩
    | none =>
      simp only [device_or_default, hor] at hd
      by_cases hlen : 1 < (all.filter (fun d => d.state == DeviceState.Device)).length
      · rw [if_pos hlen] at hd
        exact Except.noConfusion hd
      · rw [if_neg hlen] at hd
        cases hfl : all.filter (fun d => d.state == DeviceState.Device) with
        | nil => rw [hfl] at hd; exact Except.noConfusion hd
        | cons x t =>
          rw [hfl] at hd
          simp only [List.head?_cons] at hd
          have hd' : x = d := by injection hd
          subst hd'
          have hmem : x ∈ all.filter (fun d => d.state == DeviceState.Device) := by
            rw [hfl]
            exact List.mem_cons_self x t
          rw [List.mem_filter] at hmem
          exact ⟨hmem.1, by simpa using hmem.2⟩
  · intro serial hor hno
    simp only [device_or_default, hor]
    have hnone : (all.filter (fun d => d.state == DeviceState.Device)).find?
        (fun d => d.serial == serial) = none := by
      rw [List.find?_eq_none]
      intro x hx
      rw [List.mem_filter] at hx
      have := hno x hx.1 (by simpa using hx.2)
      simpa using this
    rw [hnone]
  · intro ha he hlen
    subst ha
    subst he
    simp only [device_or_default, Option.or]
    rw [if_pos hlen]
  · intro d ha he hfl
    subst ha
    subst he
    simp only [device_or_default, Option.or]
    rw [hfl]
    simp
  · intro ha he hfl
    subst ha
    subst he
    simp only [device_or_default, Option.or]
    rw [hfl]
    simp

theorem device_or_default_spec_witness :
    device_or_default
      [⟨strChars "x1", .Offline, []⟩, ⟨strChars "emulator-5554", .Device, []⟩]
      none none = .ok ⟨strChars "emulator-5554", .Device, []⟩ :=
  (device_or_default_spec
    [⟨strChars "x1", .Offline, []⟩, ⟨strChars "emulator-5554", .Device, []⟩]
    none none).2.2.2.1 ⟨strChars "emulator-5554", .Device, []⟩ rfl rfl (by decide)

/-- ASCII decimal digit test used by `str::parse` for unsigned integers. -/
def isAsciiDigit (c : Char) : Bool :=
  decide (48 ≤ c.toNat) && decide (c.toNat ≤ 57)

/-- Value of a string of ASCII decimal digits. -/
def decDigitsVal (t : List Char) : Nat :=
  t.foldl (fun a c => 10 * a + (c.toNat - 48)) 0

/-- Drops the optional leading plus sign accepted by `str::parse` for
unsigned integers. -/
def stripPlus : List Char → List Char
  | '+' :: r => r
  | s => s

/-- Models `response.parse::<u16>()` (used at src/lib.rs 783): an optional
leading plus sign, then one or more ASCII decimal digits whose value must
fit in 16 bits; anything else is a parse error.  (Rust detects overflow
digit by digit; the observable result is the same.) -/
def parse_u16 (s : List Char) : Except DeviceErrorS Nat :=
  if stripPlus s = [] then .error .ParseIntErr
  else if (stripPlus s).all isAsciiDigit then
    if decDigitsVal (stripPlus s) ≤ 65535 then .ok (decDigitsVal (stripPlus s))
    else .error .ParseIntErr
  else .error .ParseIntErr

/-- forward_port (src/lib.rs 775-787), reduced to the returned port:
`response` is the payload the server sent back for the forward command
(`local` is a Lean keyword, hence `localPort`). -/
def forward_port (localPort remotePort : Nat) (response : List Char) :
    Except DeviceErrorS Nat :=
  if localPort = 0 then parse_u16 response else .ok localPort

/-- C7 counterexample: when the server's payload is the ASCII digit 0,
`forward_port 0 _` returns port 0, contradicting the claim that the parsed
port is non-zero. -/
theorem forward_port_claim_counterexample :
    forward_port 0 1234 ['0'] = .ok 0 ∧
    ¬ (∀ n, forward_port 0 1234 ['0'] = .ok n → n ≠ 0) :=
  ⟨by decide, fun h => h 0 (by decide) rfl⟩

/-- C7 (amended): `forward_port l r` with `l ≠ 0` returns exactly `l`
whatever the payload; `forward_port 0 r` returns exactly the value parsed
from the ASCII decimal payload (which fits in 16 bits but may be 0). -/
theorem forward_port_spec (l r : Nat) (resp : List Char) :
    (l ≠ 0 → forward_port l r resp = .ok l) ∧
    (∀ n, parse_u16 resp = .ok n → forward_port 0 r resp = .ok n) ∧
    (∀ n, forward_port 0 r resp = .ok n → parse_u16 resp = .ok n ∧ n ≤ 65535) := by
  refine ⟨fun hl => ?_, fun n hn => ?_, fun n hn => ?_⟩
  · simp [forward_port, hl]
  · exact hn
  · have hn' : parse_u16 resp = .ok n := hn
    refine ⟨hn', ?_⟩
    unfold parse_u16 at hn'
    split at hn'
    · exact Except.noConfusion hn'
    · split at hn'
      · split at hn'
        · rename_i hle
          have hv : decDigitsVal (stripPlus resp) = n := by injection hn'
          omega
        · exact Except.noConfusion hn'
      · exact Except.noConfusion hn'

theorem forward_port_spec_witness :
    forward_port 7001 8001 ['x'] = .ok 7001 ∧
    forward_port 0 8001 (strChars "43210") = .ok 43210 :=
  ⟨(forward_port_spec 7001 8001 ['x']).1 (by decide),
   (forward_port_spec 0 8001 (strChars "43210")).2.1 43210 (by decide)⟩

/-- FileTransferProgress (src/lib.rs 1780-1784). -/
structure FileTransferProgress where
  total_bytes : Nat
  transferred_bytes : Nat
deriving DecidableEq, Repr

/-- Progress emissions of the chunk loop of push_internal (src/lib.rs
1297-1326) with progress reporting enabled.  `chunks` is the sequence of
non-zero sizes the source reader returns (a read of size 0 ends the loop);
`total` is the caller-supplied total_bytes; `transferred` and `last` are the
running counters.  An intermediate record is sent once at least 4 MiB
accumulated since the last emission, and a final record at end of stream. -/
def pushProgressLoop (chunks : List Nat) (total transferred last : Nat) :
    List FileTransferProgress :=
  match chunks with
  | [] => [⟨total, transferred⟩]
  | len :: rest =>
    if 4 * 1024 * 1024 ≤ transferred + len - last then
      ⟨total, transferred + len⟩ ::
        pushProgressLoop rest total (transferred + len) (transferred + len)
    else
      pushProgressLoop rest total (transferred + len) last

/-- All file-progress records push_internal emits when progress reporting is
enabled: the initial record (src/lib.rs 1228-1233) followed by the loop's
records.  push_with_progress (src/lib.rs 1201-1211) supplies `Some total`
and the sender, so both options are populated. -/
def push_progress_records (chunks : List Nat) (total : Nat) :
    List FileTransferProgress :=
  ⟨total, 0⟩ :: pushProgressLoop chunks total 0 0

/-- C6 counterexample: a source stream of one 5-byte chunk pushed with a
caller-supplied total of 0 bytes makes the final record report 5 transferred
bytes against a total of 0. -/
theorem push_progress_claim_counterexample :
    push_progress_records [5] 0 =
      [⟨0, 0⟩, ⟨0, 5⟩] ∧ ¬ ((5 : Nat) ≤ 0) := by
  decide

lemma pushProgressLoop_bound (chunks : List Nat) :
    ∀ total tr last, ∀ rec ∈ pushProgressLoop chunks total tr last,
      rec.total_bytes = total ∧ rec.transferred_bytes ≤ tr + chunks.sum := by
  induction chunks with
  | nil =>
    intro total tr last rec hrec
    simp only [pushProgressLoop, List.mem_singleton] at hrec
    subst hrec
    simp
  | cons len rest ih =>
    intro total tr last rec hrec
    simp only [pushProgressLoop] at hrec
    split at hrec
    · rcases List.mem_cons.mp hrec with hrec | hrec
      · subst hrec
        simp only [List.sum_cons]
        exact ⟨by simp, by omega⟩
      · have := ih total (tr + len) (tr + len) rec hrec
        simp only [List.sum_cons]
        exact ⟨this.1, by omega⟩
    · have := ih total (tr + len) last rec hrec
      simp only [List.sum_cons]
      exact ⟨this.1, by omega⟩

/-- C6 (amended): when the source stream yields at most the caller-supplied
total number of bytes, every emitted file-progress record satisfies
transferred_bytes ≤ total_bytes; for arbitrary streams the final and
intermediate records report the true transferred count, which can exceed the
unchecked caller-supplied total. -/
theorem push_progress_le_total (chunks : List Nat) (total : Nat)
    (h : chunks.sum ≤ total) :
    ∀ rec ∈ push_progress_records chunks total,
      rec.transferred_bytes ≤ rec.total_bytes := by
  intro rec hrec
  rcases List.mem_cons.mp hrec with hrec | hrec
  · subst hrec
    simp
  · have := pushProgressLoop_bound chunks total 0 0 rec hrec
    rw [this.1]
    omega

theorem push_progress_le_total_witness :
    (⟨10, 7⟩ : FileTransferProgress).transferred_bytes ≤
      (⟨10, 7⟩ : FileTransferProgress).total_bytes :=
  push_progress_le_total [3, 4] 10 (by decide) ⟨10, 7⟩ (by decide)

/-- Unicode white-space test of Rust `char::is_whitespace` (the property
`split_whitespace` splits on). -/
def rustIsWhitespace (c : Char) : Bool :=
  (decide (9 ≤ c.toNat) && decide (c.toNat ≤ 13)) || c == ' ' ||
  c.toNat == 133 || c.toNat == 160 || c.toNat == 5760 ||
  (decide (8192 ≤ c.toNat) && decide (c.toNat ≤ 8202)) ||
  c.toNat == 8232 || c.toNat == 8233 || c.toNat == 8239 || c.toNat == 8287 ||
  c.toNat == 12288

/-- Worker for `split_whitespace`: `acc` holds the current word reversed. -/
def splitWsAux : List Char → List Char → List (List Char)
  | [], acc => if acc.isEmpty then [] else [acc.reverse]
  | c :: t, acc =>
      if rustIsWhitespace c then
        if acc.isEmpty then splitWsAux t [] else acc.reverse :: splitWsAux t []
      else splitWsAux t (c :: acc)

/-- Rust `str::split_whitespace`: maximal non-whitespace runs, empty runs
skipped. -/
def split_whitespace (s : List Char) : List (List Char) := splitWsAux s []

/-- Worker for `splitColon`. -/
def splitColonAux : List Char → List Char → List (List Char)
  | [], acc => [acc.reverse]
  | c :: t, acc =>
      if c = ':' then acc.reverse :: splitColonAux t []
      else splitColonAux t (c :: acc)

/-- Rust `str::split(':')`: fields between colons, empties preserved; the
result always has one more field than there are colons. -/
def splitColon (s : List Char) : List (List Char) := splitColonAux s []

/-- The `filter_map` body of parse_device_info (src/lib.rs 132-139): a token
contributes a key/value pair exactly when splitting it at ':' yields exactly
two fields. -/
def pairOfToken (p : List Char) : Option (List Char × List Char) :=
  match splitColon p with
  | [k, v] => some (k, v)
  | _ => none

/-- parse_device_info (src/lib.rs 125-150).  The `BTreeMap` collect is
modelled by the association list of the surviving pairs. -/
def parse_device_info (line : List Char) : Option DeviceInfo :=
  match split_whitespace line with
  | serial :: state :: pairs =>
      some ⟨serial, deviceStateOf state, pairs.filterMap pairOfToken⟩
  | _ => none

/-- Drops one trailing carriage return, as Rust `str::lines` does on each
line. -/
def stripCr (l : List Char) : List Char :=
  match l.getLast? with
  | some '\r' => l.dropLast
  | _ => l

/-- Worker splitting at newline characters, empties preserved. -/
def splitNlAux : List Char → List Char → List (List Char)
  | [], acc => [acc.reverse]
  | c :: t, acc =>
      if c = '\n' then acc.reverse :: splitNlAux t []
      else splitNlAux t (c :: acc)

/-- Rust `str::lines`: split at newlines, drop the empty tail produced by a
trailing newline, strip one trailing carriage return per line. -/
def rustLines (s : List Char) : List (List Char) :=
  let parts := splitNlAux s []
  (if parts.getLast? = some [] then parts.dropLast else parts).map stripCr

/-- devices (src/lib.rs 496-502), reduced to parsing the devices-l payload:
each line is parsed with parse_device_info and failing lines are dropped by
`filter_map`. -/
def devices_parse (response : List Char) : List DeviceInfo :=
  (rustLines response).filterMap parse_device_info

lemma countP_congr_local {α : Type} (p q : α → Bool) (l : List α)
    (h : ∀ a ∈ l, p a = q a) : l.countP p = l.countP q := by
  induction l with
  | nil => rfl
  | cons x t ih =>
    rw [List.countP_cons, List.countP_cons, h x (List.mem_cons_self x t),
      ih (fun a ha => h a (List.mem_cons_of_mem x ha))]

lemma pairOfToken_isSome (p : List Char) :
    (pairOfToken p).isSome = ((splitColon p).length == 2) := by
  unfold pairOfToken
  rcases hs : splitColon p with _ | ⟨k, _ | ⟨v, _ | ⟨w, t⟩⟩⟩ <;> simp

lemma parse_device_info_isSome (line : List Char) :
    (parse_device_info line).isSome = decide (2 ≤ (split_whitespace line).length) := by
  unfold parse_device_info
  rcases hs : split_whitespace line with _ | ⟨a, _ | ⟨b, t⟩⟩ <;> simp

/-- C10: parse_device_info returns none exactly for lines with fewer than
two whitespace-separated fields; in a parsed line the attribute list keeps
exactly the tokens that split at ':' into exactly two parts, dropping the
rest silently; and the devices-l parse never fails on malformed lines: it
returns one entry per line with at least two fields, omitting the others. -/
theorem parse_device_info_spec (line response : List Char) :
    (parse_device_info line = none ↔ (split_whitespace line).length < 2) ∧
    (∀ d, parse_device_info line = some d →
      d.info = ((split_whitespace line).drop 2).filterMap pairOfToken ∧
      d.info.length = ((split_whitespace line).drop 2).countP
        (fun p => (splitColon p).length == 2)) ∧
    (devices_parse response).length =
      (rustLines response).countP
        (fun l => decide (2 ≤ (split_whitespace l).length)) := by
  refine ⟨?_, ?_, ?_⟩
  · unfold parse_device_info
    rcases hs : split_whitespace line with _ | ⟨a, _ | ⟨b, t⟩⟩ <;> simp
  · intro d hd
    unfold parse_device_info at hd
    rcases hs : split_whitespace line with _ | ⟨a, _ | ⟨b, t⟩⟩ <;> rw [hs] at hd
    · exact Option.noConfusion hd
    · exact Option.noConfusion hd
    · have hd' : (⟨a, deviceStateOf b, t.filterMap pairOfToken⟩ : DeviceInfo) = d := by
        injection hd
      subst hd'
      refine ⟨by simp, ?_⟩
      simp only [List.drop_succ_cons, List.drop_zero]
      rw [List.length_filterMap_eq_countP]
      exact countP_congr_local _ _ t (fun p _ => pairOfToken_isSome p)
  · unfold devices_parse
    rw [List.length_filterMap_eq_countP]
    exact countP_congr_local _ _ _ (fun l _ => parse_device_info_isSome l)

/-- Byte-level errors of `DeviceError` as they occur in the stream-reading
code paths: `ioErr` models a failed `read_exact`/`read_to_end`, `utf8Err` a
`std::str::from_utf8` failure propagated by `?`, `parseIntErr` a failed
`from_str_radix`, `panicked` a Rust panic (out-of-bounds `split_off` or
slice index), and `adbErr` carries the bytes of the protocol error
message. -/
inductive RErrB where
  | ioErr
  | utf8Err
  | parseIntErr
  | panicked
  | adbErr (msg : List Nat)
deriving DecidableEq, Repr

/-- Modelled from the spec: the `SyncCommand` enum and its `code` method live
in src/adb.rs, which is not among the provided sources; per the spec the
command codes are 4-byte ASCII strings from the closed set OKAY, FAIL, SEND,
RECV, LIST, DENT, DONE, DATA, STAT. -/
def OKAYb : List Nat := strBytes "OKAY"

/-- Modelled from the spec: the FAIL sync command code (see `OKAYb`). -/
def FAILb : List Nat := strBytes "FAIL"

/-- Modelled from the spec: the DENT sync command code (see `OKAYb`). -/
def DENTb : List Nat := strBytes "DENT"

/-- Modelled from the spec: the DONE sync command code (see `OKAYb`). -/
def DONEb : List Nat := strBytes "DONE"

/-- Modelled from the spec: the STAT sync command code (see `OKAYb`). -/
def STATb : List Nat := strBytes "STAT"

/-- Models `read_exact` into a buffer of `n` bytes: the bytes read and the
unread remainder, or `none` when the stream is too short. -/
def readExact (n : Nat) (s : List Nat) : Option (List Nat × List Nat) :=
  if n ≤ s.length then some (s.take n, s.drop n) else none

lemma readExact_append (l t : List Nat) :
    readExact l.length (l ++ t) = some (l, t) := by
  unfold readExact
  rw [if_pos (by simp), List.take_left, List.drop_left]

lemma readExact_length {n : Nat} {s a t : List Nat}
    (h : readExact n s = some (a, t)) : a.length = n ∧ t.length + n = s.length := by
  unfold readExact at h
  split at h
  · rename_i hle
    have h' : (s.take n, s.drop n) = (a, t) := by injection h
    have ha : s.take n = a := congrArg Prod.fst h'
    have ht : s.drop n = t := congrArg Prod.snd h'
    constructor
    · rw [← ha, List.length_take]
      omega
    · rw [← ht, List.length_drop]
      omega
  · exact Option.noConfusion h

lemma rlle_length {s : List Nat} {n : Nat} {t : List Nat}
    (h : read_length_little_endian s = some (n, t)) : t.length + 4 = s.length := by
  rcases s with _ | ⟨b0, _ | ⟨b1, _ | ⟨b2, _ | ⟨b3, r⟩⟩⟩⟩
  · exact Option.noConfusion h
  · exact Option.noConfusion h
  · exact Option.noConfusion h
  · exact Option.noConfusion h
  · have h' : (b0 + (b1 <<< 8) + (b2 <<< 16) + (b3 <<< 24), r) = (n, t) := by injection h
    have ht : r = t := congrArg Prod.snd h'
    rw [← ht]
    simp

/-- Continuation-byte test of UTF-8. -/
def isCont (b : Nat) : Bool := decide (128 ≤ b) && decide (b ≤ 191)

/-- UTF-8 validity of a byte sequence, as `std::str::from_utf8` checks it
(shortest-form encodings only, surrogates and values beyond U+10FFFF
rejected). -/
def validUtf8 : List Nat → Bool
  | [] => true
  | b :: t =>
    if b ≤ 127 then validUtf8 t
    else if 194 ≤ b ∧ b ≤ 223 then
      match t with
      | c1 :: t' => isCont c1 && validUtf8 t'
      | [] => false
    else if b = 224 then
      match t with
      | c1 :: c2 :: t' =>
          (decide (160 ≤ c1) && decide (c1 ≤ 191)) && isCont c2 && validUtf8 t'
      | _ => false
    else if (225 ≤ b ∧ b ≤ 236) ∨ b = 238 ∨ b = 239 then
      match t with
      | c1 :: c2 :: t' => isCont c1 && isCont c2 && validUtf8 t'
      | _ => false
    else if b = 237 then
      match t with
      | c1 :: c2 :: t' =>
          (decide (128 ≤ c1) && decide (c1 ≤ 159)) && isCont c2 && validUtf8 t'
      | _ => false
    else if b = 240 then
      match t with
      | c1 :: c2 :: c3 :: t' =>
          (decide (144 ≤ c1) && decide (c1 ≤ 191)) && isCont c2 && isCont c3 && validUtf8 t'
      | _ => false
    else if 241 ≤ b ∧ b ≤ 243 then
      match t with
      | c1 :: c2 :: c3 :: t' => isCont c1 && isCont c2 && isCont c3 && validUtf8 t'
      | _ => false
    else if b = 244 then
      match t with
      | c1 :: c2 :: c3 :: t' =>
          (decide (128 ≤ c1) && decide (c1 ≤ 143)) && isCont c2 && isCont c3 && validUtf8 t'
      | _ => false
    else false

/-- Drops the optional leading plus sign of an unsigned integer literal,
byte-level version. -/
def stripPlusB : List Nat → List Nat
  | 43 :: r => r
  | s => s

/-- Hexadecimal value of an ASCII byte, both cases, as accepted by
`from_str_radix(_, 16)`. -/
def hexByteVal (b : Nat) : Option Nat :=
  if 48 ≤ b ∧ b ≤ 57 then some (b - 48)
  else if 65 ≤ b ∧ b ≤ 70 then some (b - 55)
  else if 97 ≤ b ∧ b ≤ 102 then some (b - 87)
  else none

/-- Models `usize::from_str_radix(s, 16)` applied to the decoded text of the
given bytes: optional leading plus, then one or more hex digits; any other
byte (including every byte of a non-ASCII character) fails the parse. -/
def parseHexBytes (s : List Nat) : Option Nat :=
  if stripPlusB s ≠ [] ∧ (stripPlusB s).all (fun b => (hexByteVal b).isSome) then
    some ((stripPlusB s).foldl (fun a b => 16 * a + (hexByteVal b).getD 0) 0)
  else none

/-- The double-OKAY adjustment of read_response (src/lib.rs 227-231): a
second leading OKAY in the payload is dropped. -/
def dropSecondOkay (payload : List Nat) : List Nat :=
  if OKAYb.isPrefixOf payload then payload.drop 4 else payload

/-- The OKAY-with-output tail of read_response (src/lib.rs 224-266): after
the double-OKAY adjustment, a leading FAIL drops FAIL plus the 4 length
bytes (`split_off(8)`, which panics when fewer than 8 bytes remain) and
surfaces the rest as a protocol error; otherwise, with `has_length`, the
payload is split after a parsed 4-hex-digit prefix; without it the payload
is returned as is. -/
def process_okay_payload (payload : List Nat) (has_length : Bool) :
    Except RErrB (List Nat) :=
  let response := dropSecondOkay payload
  if FAILb.isPrefixOf response then
    if response.length < 8 then .error .panicked
    else if validUtf8 (response.drop 8) then
      .error (.adbErr (strBytes "adb error: " ++ response.drop 8))
    else .error .utf8Err
  else if has_length then
    if 4 ≤ response.length then
      if validUtf8 (response.take 4) then
        match parseHexBytes (response.take 4) with
        | none => .error .parseIntErr
        | some _ => .ok (response.drop 4)
      else .error .utf8Err
    else
      if validUtf8 response then
        .error (.adbErr (strBytes
          "adb server response did not contain expected hexstring length: " ++ response))
      else .error .utf8Err
  else .ok response

/-- read_response (src/lib.rs 204-269) over the reply byte stream: the first
4 bytes decide OKAY; a non-OKAY reply reads a 4-hex-digit length (capped at
the 1024-byte buffer) and surfaces a length-prefixed error; an OKAY reply
with output expected reads to end of stream and post-processes the payload
(the declared-length mismatch of the source only logs a warning, and the
Rust Debug escaping of the hexstring-length error text is not modelled). -/
def read_response (s : List Nat) (has_output has_length : Bool) :
    Except RErrB (List Nat) :=
  match readExact 4 s with
  | none => .error .ioErr
  | some (code, rest) =>
    if code ≠ OKAYb then
      match readExact 4 rest with
      | none => .error .ioErr
      | some (lenB, rest2) =>
        if validUtf8 lenB then
          match parseHexBytes lenB with
          | none => .error .parseIntErr
          | some n =>
            match readExact (min 1024 n) rest2 with
            | none => .error .ioErr
            | some (msg, _) =>
              if validUtf8 msg then .error (.adbErr (strBytes "adb error: " ++ msg))
              else .error .utf8Err
        else .error .utf8Err
    else if has_output then
      process_okay_payload rest has_length
    else .ok []

/-- C2 counterexample: with a length-framed response declared
(`has_length = true`), an OKAY reply with payload "0004abcd" (no second
OKAY, no FAIL) returns "abcd", not the payload "0004abcd" the claim says is
returned to the caller. -/
theorem read_response_claim_counterexample :
    OKAYb.isPrefixOf (OKAYb ++ strBytes "0004abcd") = true ∧
    dropSecondOkay ((OKAYb ++ strBytes "0004abcd").drop 4) = strBytes "0004abcd" ∧
    FAILb.isPrefixOf (strBytes "0004abcd") = false ∧
    read_response (OKAYb ++ strBytes "0004abcd") true true ≠ .ok (strBytes "0004abcd") ∧
    read_response (OKAYb ++ strBytes "0004abcd") true true = .ok (strBytes "abcd") := by
  decide

/-- C2 (amended): for every reply whose first 4 bytes are OKAY, with output
expected and no length framing declared, read_response drops a second
leading OKAY from the payload if present; if what remains then begins with
FAIL, it drops FAIL plus the next 4 length bytes and surfaces the remaining
string as a protocol error (panicking when fewer than 8 bytes remain and
failing with a Utf8 error when the remainder is not valid UTF-8); otherwise
the payload is returned to the caller.  With length framing declared the
payload is instead split after a 4-hex-digit length prefix. -/
theorem read_response_spec (s : List Nat) (h : OKAYb.isPrefixOf s = true) :
    read_response s true false =
      if FAILb.isPrefixOf (dropSecondOkay (s.drop 4)) then
        if (dropSecondOkay (s.drop 4)).length < 8 then .error .panicked
        else if validUtf8 ((dropSecondOkay (s.drop 4)).drop 8) then
          .error (.adbErr (strBytes "adb error: " ++ (dropSecondOkay (s.drop 4)).drop 8))
        else .error .utf8Err
      else .ok (dropSecondOkay (s.drop 4)) := by
  obtain ⟨t, ht⟩ := List.isPrefixOf_iff_prefix.mp h
  subst ht
  have h4 : readExact 4 (OKAYb ++ t) = some (OKAYb, t) := readExact_append OKAYb t
  have hdrop : (OKAYb ++ t).drop 4 = t := List.drop_left OKAYb t
  rw [hdrop]
  have hr : read_response (OKAYb ++ t) true false = process_okay_payload t false := by
    unfold read_response
    rw [h4]
    rfl
  rw [hr]
  rfl

theorem read_response_spec_witness :
    read_response (OKAYb ++ OKAYb ++ FAILb ++ strBytes "0006whoops") true false =
      .error (.adbErr (strBytes "adb error: whoops")) := by
  have h := read_response_spec (OKAYb ++ OKAYb ++ FAILb ++ strBytes "0006whoops") (by decide)
  rw [h]
  decide

/-- UnixFileStatus (src/lib.rs 40-48). -/
inductive UnixFileStatus where
  | Directory
  | CharacterDevice
  | BlockDevice
  | RegularFile
  | SymbolicLink
  | Socket
deriving DecidableEq, Repr

/-- FileMetadata (src/lib.rs 50-57); the path is carried as its UTF-8 bytes
and `modified_time` as the seconds-since-epoch value the source adds to
`UNIX_EPOCH`. -/
structure FileMetadata where
  path : List Nat
  file_mode : UnixFileStatus
  size : Nat
  modified_time : Option Nat
  depth : Option Nat
deriving DecidableEq, Repr

/-- The DENT loop of list_dir_flat (src/lib.rs 883-956) over the sync-session
reply stream that follows the LIST request.  Each iteration reads a 4-byte
code: DENT reads mode, size, mtime and name length (4-byte little-endian
each) and then the name (`read_exact` into the 64 KiB buffer panics when the
declared length exceeds it), skips "." and "..", prepends a non-empty prefix
as `prefix/name`, and accepts only file types 0b010 (directory), 0b100
(regular file, keeping `size`, which as a 4-byte value is already below
2^32) and 0b101 (symlink); directories and symlinks record size 0 and any
other type aborts; DONE ends the listing; FAIL surfaces a length-prefixed
message (capped at the buffer size, with a placeholder when not UTF-8); any
other code is "FAIL (unknown)". -/
def list_dir_flat_loop (s : List Nat) (depth : Nat) (pre : List Nat)
    (acc : List FileMetadata) : Except RErrB (List FileMetadata) :=
  match h4 : readExact 4 s with
  | none => .error .ioErr
  | some (code, rest) =>
    if code = DENTb then
      match h5 : read_length_little_endian rest with
      | none => .error .ioErr
      | some (mode, r1) =>
        match h6 : read_length_little_endian r1 with
        | none => .error .ioErr
        | some (size, r2) =>
          match h7 : read_length_little_endian r2 with
          | none => .error .ioErr
          | some (time, r3) =>
            match h8 : read_length_little_endian r3 with
            | none => .error .ioErr
            | some (nameLen, r4) =>
              if 65536 < nameLen then .error .panicked
              else
                match h9 : readExact nameLen r4 with
                | none => .error .ioErr
                | some (nameB, r5) =>
                  if validUtf8 nameB then
                    if nameB = strBytes "." ∨ nameB = strBytes ".." then
                      list_dir_flat_loop r5 depth pre acc
                    else
                      if (mode >>> 13) &&& 7 = 2 then
                        list_dir_flat_loop r5 depth pre (acc ++
                          [⟨if pre = [] then nameB else pre ++ 47 :: nameB,
                            .Directory, 0, some time, some depth⟩])
                      else if (mode >>> 13) &&& 7 = 4 then
                        list_dir_flat_loop r5 depth pre (acc ++
                          [⟨if pre = [] then nameB else pre ++ 47 :: nameB,
                            .RegularFile, size, some time, some depth⟩])
                      else if (mode >>> 13) &&& 7 = 5 then
                        list_dir_flat_loop r5 depth pre (acc ++
                          [⟨if pre = [] then nameB else pre ++ 47 :: nameB,
                            .SymbolicLink, 0, some time, some depth⟩])
                      else
                        .error (.adbErr (strBytes
                          ("Invalid file mode " ++ toString ((mode >>> 13) &&& 7))))
                  else .error .utf8Err
    else if code = DONEb then .ok acc
    else if code = FAILb then
      match read_length_little_endian rest with
      | none => .error .ioErr
      | some (n, r1) =>
        match readExact (min 65536 n) r1 with
        | none => .error .ioErr
        | some (msg, _) =>
          .error (.adbErr (if validUtf8 msg then strBytes "adb error: " ++ msg
            else strBytes "adb error was not utf-8"))
    else .error (.adbErr (strBytes "FAIL (unknown)"))
termination_by s.length
decreasing_by
  all_goals
    have l4 := (readExact_length h4).2
    have l5 := rlle_length h5
    have l6 := rlle_length h6
    have l7 := rlle_length h7
    have l8 := rlle_length h8
    have l9 := (readExact_length h9).2
    omega

/-- C3: consumption of one well-formed DENT frame by the flat-listing loop.
The frame carries mode, size, mtime and name length as 4-byte little-endian
values followed by the name bytes; names "." and ".." are skipped; with file
type computed as mode shifted right by 13 masked to 3 bits, only 0b010
(Directory), 0b100 (RegularFile) and 0b101 (SymbolicLink) are accepted and
any other value aborts the listing with an error; a non-empty prefix turns
the recorded path into prefix/name; and the recorded size is 0 for the
non-regular (directory and symlink) entries. -/
theorem list_dir_flat_dent_step
    (mode size time depth : Nat) (nameB rest pre : List Nat)
    (acc : List FileMetadata)
    (hm : mode < 2 ^ 32) (hs : size < 2 ^ 32) (ht : time < 2 ^ 32)
    (hn : nameB.length ≤ 65536) (hu : validUtf8 nameB = true) :
    list_dir_flat_loop
      (DENTb ++ write_length_little_endian mode ++ write_length_little_endian size ++
        write_length_little_endian time ++ write_length_little_endian nameB.length ++
        nameB ++ rest) depth pre acc =
      (if nameB = strBytes "." ∨ nameB = strBytes ".." then
        list_dir_flat_loop rest depth pre acc
      else
        if (mode >>> 13) &&& 7 = 2 then
          list_dir_flat_loop rest depth pre (acc ++
            [⟨if pre = [] then nameB else pre ++ 47 :: nameB,
              .Directory, 0, some time, some depth⟩])
        else if (mode >>> 13) &&& 7 = 4 then
          list_dir_flat_loop rest depth pre (acc ++
            [⟨if pre = [] then nameB else pre ++ 47 :: nameB,
              .RegularFile, size, some time, some depth⟩])
        else if (mode >>> 13) &&& 7 = 5 then
          list_dir_flat_loop rest depth pre (acc ++
            [⟨if pre = [] then nameB else pre ++ 47 :: nameB,
              .SymbolicLink, 0, some time, some depth⟩])
        else
          .error (.adbErr (strBytes
            ("Invalid file mode " ++ toString ((mode >>> 13) &&& 7))))) := by
  have hlen32 : nameB.length < 2 ^ 32 := by omega
  have h65 : ¬ 65536 < nameB.length := by omega
  have e1 : readExact 4 (DENTb ++ (write_length_little_endian mode ++
      (write_length_little_endian size ++ (write_length_little_endian time ++
        (write_length_little_endian nameB.length ++ (nameB ++ rest)))))) =
      some (DENTb, write_length_little_endian mode ++
        (write_length_little_endian size ++ (write_length_little_endian time ++
          (write_length_little_endian nameB.length ++ (nameB ++ rest))))) :=
    readExact_append DENTb _
  have e2 := read_write_le_roundtrip mode
    (write_length_little_endian size ++ (write_length_little_endian time ++
      (write_length_little_endian nameB.length ++ (nameB ++ rest)))) hm
  have e3 := read_write_le_roundtrip size
    (write_length_little_endian time ++
      (write_length_little_endian nameB.length ++ (nameB ++ rest))) hs
  have e4 := read_write_le_roundtrip time
    (write_length_little_endian nameB.length ++ (nameB ++ rest)) ht
  have e5 := read_write_le_roundtrip nameB.length (nameB ++ rest) hlen32
  have e6 : readExact nameB.length (nameB ++ rest) = some (nameB, rest) :=
    readExact_append nameB rest
  simp only [List.append_assoc]
  conv_lhs => rw [list_dir_flat_loop.eq_def]
  split
  · rename_i heq
    rw [e1] at heq
    exact Option.noConfusion heq
  · rename_i code rest' heq
    rw [e1] at heq
    injection heq with hpair
    have hc : DENTb = code := congrArg Prod.fst hpair
    have hr : write_length_little_endian mode ++
        (write_length_little_endian size ++ (write_length_little_endian time ++
          (write_length_little_endian nameB.length ++ (nameB ++ rest)))) = rest' :=
      congrArg Prod.snd hpair
    subst hc
    subst hr
    rw [if_pos rfl]
    split
    · rename_i heq2
      rw [e2] at heq2
      exact Option.noConfusion heq2
    · rename_i mode' r1 heq2
      rw [e2] at heq2
      injection heq2 with hp2
      have hm2 : mode = mode' := congrArg Prod.fst hp2
      have hr1 : write_length_little_endian size ++ (write_length_little_endian time ++
          (write_length_little_endian nameB.length ++ (nameB ++ rest))) = r1 :=
        congrArg Prod.snd hp2
      subst hm2
      subst hr1
      split
      · rename_i heq3
        rw [e3] at heq3
        exact Option.noConfusion heq3
      · rename_i size' r2 heq3
        rw [e3] at heq3
        injection heq3 with hp3
        have hs3 : size = size' := congrArg Prod.fst hp3
        have hr2 : write_length_little_endian time ++
            (write_length_little_endian nameB.length ++ (nameB ++ rest)) = r2 :=
          congrArg Prod.snd hp3
        subst hs3
        subst hr2
        split
        · rename_i heq4
          rw [e4] at heq4
          exact Option.noConfusion heq4
        · rename_i time' r3 heq4
          rw [e4] at heq4
          injection heq4 with hp4
          have ht4 : time = time' := congrArg Prod.fst hp4
          have hr3 : write_length_little_endian nameB.length ++ (nameB ++ rest) = r3 :=
            congrArg Prod.snd hp4
          subst ht4
          subst hr3
          split
          · rename_i heq5
            rw [e5] at heq5
            exact Option.noConfusion heq5
          · rename_i nameLen r4 heq5
            rw [e5] at heq5
            injection heq5 with hp5
            have hl5 : nameB.length = nameLen := congrArg Prod.fst hp5
            have hr4 : nameB ++ rest = r4 := congrArg Prod.snd hp5
            subst hl5
            subst hr4
            rw [if_neg h65]
            split
            · rename_i heq6
              rw [e6] at heq6
              exact Option.noConfusion heq6
            · rename_i nameB' r5 heq6
              rw [e6] at heq6
              injection heq6 with hp6
              have hn6 : nameB = nameB' := congrArg Prod.fst hp6
              have hr5 : rest = r5 := congrArg Prod.snd hp6
              subst hn6
              subst hr5
              rw [if_pos hu]

theorem list_dir_flat_dent_step_witness :
    list_dir_flat_loop
      (DENTb ++ write_length_little_endian 16877 ++ write_length_little_endian 9 ++
        write_length_little_endian 1700000000 ++ write_length_little_endian 3 ++
        strBytes "sub" ++ DONEb) 4 (strBytes "prefix") [] =
      list_dir_flat_loop DONEb 4 (strBytes "prefix")
        [⟨strBytes "prefix/sub", .Directory, 0, some 1700000000, some 4⟩] := by
  have h := list_dir_flat_dent_step 16877 9 1700000000 4 (strBytes "sub") DONEb
    (strBytes "prefix") [] (by norm_num) (by norm_num) (by norm_num)
    (by decide) (by decide)
  rw [show (strBytes "sub").length = 3 from rfl] at h
  rw [h, if_neg (by decide), if_pos (by decide)]
  congr 1

/-- stat (src/lib.rs 1548-1617), reduced to parsing the sync-session reply
to the STAT request: a 4-byte code that must be STAT, then 12 bytes holding
mode, size and mtime as 4-byte little-endian values.  Mode 0 is the
"No such file or directory" protocol error; otherwise the upper mode nibble
selects the file kind (any other nibble is an error whose hex-formatted text
is not modelled further); `modified_time` is None exactly for mtime 0 and
`depth` is always None. -/
def stat_parse (path : List Nat) (reply : List Nat) : Except RErrB FileMetadata :=
  match readExact 4 reply with
  | none => .error .ioErr
  | some (code, rest) =>
    if code ≠ STATb then .error (.adbErr (strBytes "Invalid response code: " ++ code))
    else
      -- The source reads the 12 bytes at once and decodes three 4-byte
      -- little-endian slices; reading the three values in sequence is
      -- observably identical, including the I/O error on short streams.
      match read_length_little_endian rest with
      | none => .error .ioErr
      | some (mode, r1) =>
        match read_length_little_endian r1 with
        | none => .error .ioErr
        | some (size, r2) =>
          match read_length_little_endian r2 with
          | none => .error .ioErr
          | some (time, _) =>
              if mode = 0 then
                .error (.adbErr (strBytes "adb: stat failed: No such file or directory"))
              else if mode &&& 61440 = 16384 then
                .ok ⟨path, .Directory, size, if time = 0 then none else some time, none⟩
              else if mode &&& 61440 = 8192 then
                .ok ⟨path, .CharacterDevice, size, if time = 0 then none else some time, none⟩
              else if mode &&& 61440 = 24576 then
                .ok ⟨path, .BlockDevice, size, if time = 0 then none else some time, none⟩
              else if mode &&& 61440 = 32768 then
                .ok ⟨path, .RegularFile, size, if time = 0 then none else some time, none⟩
              else if mode &&& 61440 = 40960 then
                .ok ⟨path, .SymbolicLink, size, if time = 0 then none else some time, none⟩
              else if mode &&& 61440 = 49152 then
                .ok ⟨path, .Socket, size, if time = 0 then none else some time, none⟩
              else
                .error (.adbErr (strBytes "Unknown file mode: " ++
                  strBytes (toString mode)))

lemma stat_md_fields {path : List Nat} {fm : UnixFileStatus} {size time : Nat}
    {md : FileMetadata}
    (h : (Except.ok (⟨path, fm, size, if time = 0 then none else some time, none⟩ :
        FileMetadata) : Except RErrB FileMetadata) = Except.ok md) :
    (md.modified_time = none ↔ time = 0) ∧
    (time ≠ 0 → md.modified_time = some time) ∧ md.depth = none := by
  have h' : (⟨path, fm, size, if time = 0 then none else some time, none⟩ :
      FileMetadata) = md := by injection h
  subst h'
  by_cases htime : time = 0 <;> simp [htime]

/-- C9: every successful stat reply (mode non-zero, kind recognised) yields
metadata whose `modified_time` is None exactly when the 4-byte mtime field is
0 and is Some of the mtime seconds otherwise, and whose `depth` is None. -/
theorem stat_modified_time_spec (path : List Nat) (mode size time : Nat)
    (rest : List Nat) (hm : mode < 2 ^ 32) (hs : size < 2 ^ 32)
    (ht : time < 2 ^ 32) :
    ∀ md, stat_parse path
        (STATb ++ write_length_little_endian mode ++ write_length_little_endian size ++
          write_length_little_endian time ++ rest) = .ok md →
      (md.modified_time = none ↔ time = 0) ∧
      (time ≠ 0 → md.modified_time = some time) ∧ md.depth = none := by
  intro md hmd
  have e1 : readExact 4 (STATb ++ (write_length_little_endian mode ++
      (write_length_little_endian size ++ (write_length_little_endian time ++ rest)))) =
      some (STATb, write_length_little_endian mode ++
        (write_length_little_endian size ++ (write_length_little_endian time ++ rest))) :=
    readExact_append STATb _
  have e2 := read_write_le_roundtrip mode
    (write_length_little_endian size ++ (write_length_little_endian time ++ rest)) hm
  have e3 := read_write_le_roundtrip size (write_length_little_endian time ++ rest) hs
  have e4 := read_write_le_roundtrip time rest ht
  unfold stat_parse at hmd
  simp only [List.append_assoc, e1, e2, e3, e4, ne_eq, not_true_eq_false, if_false,
    eq_self_iff_true, ite_true, ite_false] at hmd
  split at hmd
  · exact Except.noConfusion hmd
  · split at hmd
    · exact stat_md_fields hmd
    · split at hmd
      · exact stat_md_fields hmd
      · split at hmd
        · exact stat_md_fields hmd
        · split at hmd
          · exact stat_md_fields hmd
          · split at hmd
            · exact stat_md_fields hmd
            · split at hmd
              · exact stat_md_fields hmd
              · exact Except.noConfusion hmd

theorem stat_modified_time_spec_witness :
    stat_parse (strBytes "/x")
        (STATb ++ write_length_little_endian 33261 ++ write_length_little_endian 5 ++
          write_length_little_endian 1700000000 ++ []) =
      .ok ⟨strBytes "/x", .RegularFile, 5, some 1700000000, none⟩ ∧
    ((⟨strBytes "/x", .RegularFile, 5, some 1700000000, none⟩ :
        FileMetadata).modified_time = none ↔ (1700000000 : Nat) = 0) ∧
    (⟨strBytes "/x", .RegularFile, 5, some 1700000000, none⟩ :
        FileMetadata).depth = none := by
  refine ⟨by decide, ?_, ?_⟩
  · exact (stat_modified_time_spec (strBytes "/x") 33261 5 1700000000 []
      (by norm_num) (by norm_num) (by norm_num) _ (by decide)).1
  · exact (stat_modified_time_spec (strBytes "/x") 33261 5 1700000000 []
      (by norm_num) (by norm_num) (by norm_num) _ (by decide)).2.2

theorem parse_device_info_spec_witness :
    parse_device_info (strChars "onlyserial") = none ∧
    (⟨strChars "abc", .Device,
        [(strChars "usb", strChars "1-1"), (strChars "product", strChars "x")]⟩ :
      DeviceInfo).info.length = 2 := by
  constructor
  · exact (parse_device_info_spec (strChars "onlyserial") []).1.mpr (by decide)
  · have h := (parse_device_info_spec
      (strChars "abc\tdevice usb:1-1 bad:a:b product:x noattr") []).2.1
      ⟨strChars "abc", .Device,
        [(strChars "usb", strChars "1-1"), (strChars "product", strChars "x")]⟩
      (by decide)
    rw [h.2]
    decide

end ForensicAdb
